import Mathlib

/-!
Verification of the note-template generator (`streamlit_app.py`).

The development shallowly embeds the program's core logic:

* `format_check_types` — the multi-select joiner (source lines 10-22);
* `format_functions_registry` — the name-to-formatter registry (lines 26-29);
* `recurse` / `get_sidebar_options` — the sidebar flattener (lines 57-79);
* `renderAux` / `render` — the `template.format(**user_inputs)` call together
  with its `KeyError` handler (lines 208-222), modelling Python `str.format`
  for templates whose replacement fields are plain names (no conversion or
  format-spec suffixes — the only kind the program's templates use);
* `resolveField` / `resolveInputs` / `generate_note` — the per-placeholder
  input loop with its formatting-function error handling (lines 143-222);
* `resolveConditional` / `resolveFields` — the `select-with-conditional`
  pattern, which is not present in the checked-in source file and is
  modelled from the specification.

Python dictionaries are embedded as association lists; dictionary update
(which keeps the position of an existing key) is `odInsert`.  Python string
comparison (used by `sorted`) is code-point lexicographic comparison,
embedded as `charsLe` on character lists.
-/

set_option linter.unusedVariables false

namespace Giant

/-! ## Association lists: the embedding of Python dicts -/

/-- First-match lookup in an association list keyed by strings; this is the
embedding of Python dictionary indexing (keys are unique in a real dict, so
first-match agrees with it). -/
def lookupAssoc {α : Type} (k : String) : List (String × α) → Option α
  | [] => none
  | (k', v) :: rest => if k' = k then some v else lookupAssoc k rest

/-- Python dictionary assignment `d[k] = v`: replaces the value in place when
the key is present (keeping its position), otherwise appends the new binding
at the end, matching insertion-ordered dict semantics. -/
def odInsert {α : Type} (k : String) (v : α) : List (String × α) → List (String × α)
  | [] => [(k, v)]
  | (k', v') :: rest => if k' = k then (k, v) :: rest else (k', v') :: odInsert k v rest

theorem lookupAssoc_sizeOf_lt {α : Type} [SizeOf α] {k : String} {es : List (String × α)} {v : α}
    (h : lookupAssoc k es = some v) : sizeOf v < sizeOf es := by
  induction es with
  | nil => simp [lookupAssoc] at h
  | cons e rest ih =>
    rw [lookupAssoc] at h
    split at h
    · cases h
      cases e
      simp
      omega
    · have := ih h
      cases e
      simp at this ⊢
      omega

theorem lookupAssoc_append {α : Type} (k : String) (a b : List (String × α)) :
    lookupAssoc k (a ++ b) = (lookupAssoc k a).or (lookupAssoc k b) := by
  induction a with
  | nil => simp [lookupAssoc]
  | cons e rest ih =>
    rw [List.cons_append, lookupAssoc, lookupAssoc]
    split
    · rfl
    · exact ih

theorem lookupAssoc_odInsert {α : Type} (k k' : String) (v : α) (o : List (String × α)) :
    lookupAssoc k (odInsert k' v o) = if k' = k then some v else lookupAssoc k o := by
  induction o with
  | nil => simp [odInsert, lookupAssoc]
  | cons e rest ih =>
    obtain ⟨ek, ev⟩ := e
    rw [odInsert]
    by_cases h1 : ek = k'
    · subst h1
      simp only [if_pos rfl, lookupAssoc]
      by_cases h2 : ek = k <;> simp [h2]
    · rw [if_neg h1, lookupAssoc, lookupAssoc]
      by_cases h2 : ek = k
      · subst h2
        have : ¬ k' = ek := fun h => h1 h.symm
        simp [this]
      · simp only [if_neg h2]
        exact ih

theorem map_fst_odInsert {α : Type} (k : String) (v : α) (o : List (String × α)) :
    (odInsert k v o).map Prod.fst =
      if k ∈ o.map Prod.fst then o.map Prod.fst else o.map Prod.fst ++ [k] := by
  induction o with
  | nil => simp [odInsert]
  | cons e rest ih =>
    obtain ⟨ek, ev⟩ := e
    rw [odInsert]
    by_cases h1 : ek = k
    · subst h1
      simp
    · have h1' : ¬ k = ek := fun h => h1 h.symm
      rw [if_neg h1]
      by_cases h2 : k ∈ rest.map Prod.fst
      · simp [h1', h2, ih]
      · simp [h1', h2, ih]

theorem odInsert_notMem {α : Type} {k : String} {v : α} {o : List (String × α)}
    (h : k ∉ o.map Prod.fst) : odInsert k v o = o ++ [(k, v)] := by
  induction o with
  | nil => simp [odInsert]
  | cons e rest ih =>
    obtain ⟨ek, ev⟩ := e
    simp only [List.map_cons, List.mem_cons] at h
    push_neg at h
    rw [odInsert, if_neg (fun he => h.1 he.symm), List.cons_append, ih h.2]

theorem nodup_map_fst_odInsert {α : Type} {k : String} {v : α} {o : List (String × α)}
    (h : (o.map Prod.fst).Nodup) : ((odInsert k v o).map Prod.fst).Nodup := by
  rw [map_fst_odInsert]
  by_cases hc : k ∈ o.map Prod.fst
  · rw [if_pos hc]
    exact h
  · rw [if_neg hc]
    refine List.Nodup.append h (by simp) ?_
    intro a ha hb
    simp only [List.mem_singleton] at hb
    subst hb
    exact hc ha

/-- One render cycle's worth of ordered-dict insertions, left to right. -/
def odInsertAll {α : Type} (o : List (String × α)) (L : List (String × α)) :
    List (String × α) :=
  L.foldl (fun acc e => odInsert e.1 e.2 acc) o

theorem odInsertAll_nil {α : Type} (o : List (String × α)) : odInsertAll o [] = o := rfl

theorem odInsertAll_cons {α : Type} (o : List (String × α)) (e : String × α)
    (L : List (String × α)) : odInsertAll o (e :: L) = odInsertAll (odInsert e.1 e.2 o) L := rfl

theorem nodup_map_fst_odInsertAll {α : Type} (L : List (String × α)) (o : List (String × α))
    (h : (o.map Prod.fst).Nodup) : ((odInsertAll o L).map Prod.fst).Nodup := by
  induction L generalizing o with
  | nil => exact h
  | cons e rest ih => exact ih _ (nodup_map_fst_odInsert h)

theorem lookupAssoc_odInsertAll {α : Type} (L : List (String × α)) (o : List (String × α))
    (k : String) :
    lookupAssoc k (odInsertAll o L) = (lookupAssoc k L.reverse).or (lookupAssoc k o) := by
  induction L generalizing o with
  | nil => simp [odInsertAll, lookupAssoc]
  | cons e rest ih =>
    obtain ⟨ek, ev⟩ := e
    rw [odInsertAll_cons, ih, List.reverse_cons, lookupAssoc_append, lookupAssoc_odInsert]
    rcases h : lookupAssoc k rest.reverse with _ | w
    · simp only [Option.none_or]
      by_cases hk : ek = k
      · simp [hk, lookupAssoc]
      · simp [hk, lookupAssoc]
    · simp [Option.or]

theorem mem_map_fst_odInsertAll {α : Type} (L : List (String × α)) (o : List (String × α))
    (k : String) :
    k ∈ (odInsertAll o L).map Prod.fst ↔ k ∈ L.map Prod.fst ∨ k ∈ o.map Prod.fst := by
  induction L generalizing o with
  | nil => simp [odInsertAll]
  | cons e rest ih =>
    obtain ⟨ek, ev⟩ := e
    rw [odInsertAll_cons, ih]
    simp only [List.map_cons, List.mem_cons, map_fst_odInsert]
    split
    · constructor
      · intro h
        rcases h with h | h
        · exact Or.inl (Or.inr h)
        · exact Or.inr h
      · intro h
        rcases h with (h | h) | h
        · subst h
          exact Or.inr (by assumption)
        · exact Or.inl h
        · exact Or.inr h
    · simp only [List.mem_append, List.mem_singleton]
      constructor
      · intro h
        rcases h with h | h | h
        · exact Or.inl (Or.inr h)
        · exact Or.inr h
        · exact Or.inl (Or.inl h)
      · intro h
        rcases h with (h | h) | h
        · exact Or.inr (Or.inr h)
        · exact Or.inl h
        · exact Or.inr (Or.inl h)

theorem odInsertAll_of_nodup {α : Type} (L : List (String × α)) (o : List (String × α))
    (hL : (L.map Prod.fst).Nodup) (hdisj : ∀ k ∈ L.map Prod.fst, k ∉ o.map Prod.fst) :
    odInsertAll o L = o ++ L := by
  induction L generalizing o with
  | nil => simp [odInsertAll]
  | cons e rest ih =>
    obtain ⟨ek, ev⟩ := e
    simp only [List.map_cons, List.nodup_cons] at hL
    rw [odInsertAll_cons]
    have hnot : ek ∉ o.map Prod.fst := hdisj ek (by simp)
    rw [odInsert_notMem hnot, ih (o ++ [(ek, ev)]) hL.2]
    · simp
    · intro k hk
      simp only [List.map_append, List.mem_append]
      push_neg
      refine ⟨hdisj k (by simp [hk]), ?_⟩
      simp only [List.map_cons, List.map_nil, List.mem_singleton]
      intro hkek
      subst hkek
      exact hL.1 hk

/-! ## Python string comparison

Python compares strings lexicographically by code point; `sorted` uses this
order.  `charsLe` is that comparison on the underlying character lists
(`Char.toNat` is the code point). -/

def charsLe : List Char → List Char → Bool
  | [], _ => true
  | _ :: _, [] => false
  | a :: as, b :: bs =>
    if a.toNat < b.toNat then true
    else if b.toNat < a.toNat then false
    else charsLe as bs

/-- The Python string order `a <= b`, as a proposition. -/
def pyLe (a b : String) : Prop := charsLe a.data b.data = true

instance : DecidableRel pyLe := fun a b => inferInstanceAs (Decidable (_ = true))

theorem charsLe_total : ∀ (a b : List Char), charsLe a b = true ∨ charsLe b a = true := by
  intro a
  induction a with
  | nil => intro b; left; simp [charsLe]
  | cons x xs ih =>
    intro b
    cases b with
    | nil => right; simp [charsLe]
    | cons y ys =>
      simp only [charsLe]
      rcases ih ys with h | h <;> split_ifs <;> simp_all <;> omega

theorem charsLe_trans : ∀ {a b c : List Char},
    charsLe a b = true → charsLe b c = true → charsLe a c = true := by
  intro a
  induction a with
  | nil => intro b c h1 h2; simp [charsLe]
  | cons x xs ih =>
    intro b c h1 h2
    cases b with
    | nil => simp [charsLe] at h1
    | cons y ys =>
      cases c with
      | nil => simp [charsLe] at h2
      | cons z zs =>
        simp only [charsLe] at h1 h2 ⊢
        split_ifs at h1 h2 ⊢ <;> first
        | rfl
        | omega
        | (exact ih h1 h2)
        | simp_all

theorem char_toNat_inj {a b : Char} (h : a.toNat = b.toNat) : a = b :=
  Char.eq_of_val_eq (UInt32.ext h)

theorem charsLe_antisymm : ∀ {a b : List Char},
    charsLe a b = true → charsLe b a = true → a = b := by
  intro a
  induction a with
  | nil =>
    intro b h1 h2
    cases b with
    | nil => rfl
    | cons y ys => simp [charsLe] at h2
  | cons x xs ih =>
    intro b h1 h2
    cases b with
    | nil => simp [charsLe] at h1
    | cons y ys =>
      simp only [charsLe] at h1 h2
      split_ifs at h1 h2 <;> first
      | omega
      | (simp_all
         done)
      | (have hx : x = y := char_toNat_inj (by omega)
         subst hx
         exact congrArg (fun t => x :: t) (ih h1 h2))

theorem pyLe_total (a b : String) : pyLe a b ∨ pyLe b a := charsLe_total a.data b.data

theorem pyLe_trans {a b c : String} (h1 : pyLe a b) (h2 : pyLe b c) : pyLe a c :=
  charsLe_trans h1 h2

theorem pyLe_antisymm {a b : String} (h1 : pyLe a b) (h2 : pyLe b a) : a = b := by
  have : a.data = b.data := charsLe_antisymm h1 h2
  cases a
  cases b
  simp_all

instance : IsTotal String pyLe := ⟨pyLe_total⟩

instance : IsTrans String pyLe := ⟨fun _ _ _ => pyLe_trans⟩

instance : IsAntisymm String pyLe := ⟨fun _ _ => pyLe_antisymm⟩

/-! ## Python `sorted` and `str.join` -/

/-- Insert a string into an already-sorted list at its place in the Python
string order. -/
def insertSorted (x : String) : List String → List String
  | [] => [x]
  | y :: ys => if charsLe x.data y.data then x :: y :: ys else y :: insertSorted x ys

/-- The embedding of Python `sorted(...)` on lists of strings: a sort by the
code-point lexicographic order.  (Any correct sort computes the same list,
because the order is total and antisymmetric.) -/
def pySorted : List String → List String
  | [] => []
  | x :: xs => insertSorted x (pySorted xs)

/-- The embedding of Python `sep.join(...)`. -/
def pyJoin (sep : String) : List String → String
  | [] => ""
  | [x] => x
  | x :: xs => x ++ sep ++ pyJoin sep xs

theorem insertSorted_perm (x : String) (l : List String) :
    (insertSorted x l).Perm (x :: l) := by
  induction l with
  | nil => simp [insertSorted]
  | cons y ys ih =>
    rw [insertSorted]
    split
    · exact List.Perm.refl _
    · exact (List.Perm.cons y ih).trans (List.Perm.swap x y ys)

theorem pySorted_perm (l : List String) : (pySorted l).Perm l := by
  induction l with
  | nil => simp [pySorted]
  | cons x xs ih =>
    rw [pySorted]
    exact (insertSorted_perm x (pySorted xs)).trans (List.Perm.cons x ih)

theorem sorted_insertSorted {x : String} {l : List String} (hs : List.Sorted pyLe l) :
    List.Sorted pyLe (insertSorted x l) := by
  induction l with
  | nil => simp [insertSorted]
  | cons y ys ih =>
    obtain ⟨hy, hys⟩ := List.sorted_cons.mp hs
    rw [insertSorted]
    by_cases hxy : charsLe x.data y.data = true
    · rw [if_pos hxy]
      refine List.sorted_cons.mpr ⟨?_, hs⟩
      intro b hb
      rcases List.mem_cons.mp hb with hb | hb
      · subst hb
        exact hxy
      · exact pyLe_trans hxy (hy b hb)
    · rw [if_neg hxy]
      refine List.sorted_cons.mpr ⟨?_, ih hys⟩
      intro b hb
      have hmem := (insertSorted_perm x ys).mem_iff.mp hb
      rcases List.mem_cons.mp hmem with hb' | hb'
      · rw [hb']
        rcases pyLe_total x y with h | h
        · exact absurd h hxy
        · exact h
      · exact hy b hb'

theorem pySorted_sorted (l : List String) : List.Sorted pyLe (pySorted l) := by
  induction l with
  | nil => simp [pySorted]
  | cons x xs ih => exact sorted_insertSorted ih

theorem pySorted_perm_eq {l₁ l₂ : List String} (h : l₁.Perm l₂) : pySorted l₁ = pySorted l₂ :=
  List.eq_of_perm_of_sorted
    (((pySorted_perm l₁).trans h).trans (pySorted_perm l₂).symm)
    (pySorted_sorted l₁) (pySorted_sorted l₂)

/-! ## The multi-select joiner `format_check_types` (source lines 10-22)

Python source:
```
def format_check_types(selected_types):
    if not selected_types:
        return "[No check type selected]"
    elif len(selected_types) == 1:
        return selected_types[0]
    elif len(selected_types) == 2:
        sorted_types = sorted(selected_types)
        return f"{sorted_types[0]} & {sorted_types[1]}"
    elif len(selected_types) == 3:
        return "Credit, Criminal & Directorship"
    else:
        return " & ".join(sorted(selected_types))
```
-/

def format_check_types (selected_types : List String) : String :=
  if selected_types.isEmpty then "[No check type selected]"
  else if selected_types.length = 1 then selected_types.getD 0 ""
  else if selected_types.length = 2 then
    (pySorted selected_types).getD 0 "" ++ " & " ++ (pySorted selected_types).getD 1 ""
  else if selected_types.length = 3 then "Credit, Criminal & Directorship"
  else pyJoin " & " (pySorted selected_types)

theorem format_check_types_nil : format_check_types [] = "[No check type selected]" := rfl

theorem format_check_types_one (t : String) : format_check_types [t] = t := by
  simp [format_check_types]

theorem format_check_types_two {l : List String} (h : l.length = 2) :
    format_check_types l = (pySorted l).getD 0 "" ++ " & " ++ (pySorted l).getD 1 "" := by
  obtain ⟨a, b, rfl⟩ := List.length_eq_two.mp h
  simp [format_check_types]

theorem format_check_types_three {l : List String} (h : l.length = 3) :
    format_check_types l = "Credit, Criminal & Directorship" := by
  obtain ⟨a, b, c, rfl⟩ := List.length_eq_three.mp h
  simp [format_check_types]

theorem format_check_types_ge_four {l : List String} (h : 4 ≤ l.length) :
    format_check_types l = pyJoin " & " (pySorted l) := by
  have h0 : ¬ l.isEmpty = true := by
    cases l
    · simp at h
    · simp
  have h1 : ¬ l.length = 1 := by omega
  have h2 : ¬ l.length = 2 := by omega
  have h3 : ¬ l.length = 3 := by omega
  rw [format_check_types, if_neg h0, if_neg h1, if_neg h2, if_neg h3]

/-! ## Widget values and the format-function registry (source lines 24-29)

A raw widget value is either a string (from `st.text_input` / `st.text_area`)
or a list of selected strings (from `st.multiselect`).  A registry entry is a
Python callable, which may raise: it is embedded as a function into `Except`,
whose `error` constructor carries the exception text. -/

inductive WidgetValue where
  | s : String → WidgetValue
  | l : List String → WidgetValue

/-- Iterating or indexing a Python string yields its one-character strings;
`format_check_types` applied to a string behaves as if applied to that list.
(`len`, indexing, `sorted` and `join` all agree under this view.) -/
def charStrs (t : String) : List String := t.data.map (fun c => String.mk [c])

/-- The registry entry for `format_check_types`.  As a Python callable it is
applied to whatever raw widget value the field produced; it never raises. -/
def format_check_types_fn : WidgetValue → Except String String
  | .l xs => .ok (format_check_types xs)
  | .s t => .ok (format_check_types (charStrs t))

/-- The module-level registry: maps the string name used in the YAML schema
to the Python function (source lines 26-29). -/
def format_functions_registry : List (String × (WidgetValue → Except String String)) :=
  [("format_check_types", format_check_types_fn)]

/-! ## The YAML schema tree and the sidebar flattener (source lines 57-79)

A loaded YAML node is either a string or a nested mapping (the only shapes
the program's schema uses); mappings are association lists in document
order.  Python source of the flattener:

```
def get_sidebar_options(data):
    options = OrderedDict()
    def recurse(sub_data, path_list, display_prefix):
        for key, value in sub_data.items():
            if isinstance(value, dict):
                current_display_name = value.get("display_name", key.replace("_", " ").title())
                current_path_list = path_list + [key]
                new_display_prefix = f"{display_prefix}{current_display_name}"
                if "sub_items" in value and isinstance(value["sub_items"], dict):
                     recurse(value["sub_items"], current_path_list, new_display_prefix + " > ")
                elif "template" in value:
                    options[new_display_prefix] = current_path_list
    recurse(data, [], "")
    return options
```
-/

inductive YVal where
  | s : String → YVal
  | d : List (String × YVal) → YVal

mutual

/-- Python `repr` of a loaded YAML value (string quoting without escape
handling, which the program's data never needs). -/
def pyReprY : YVal → String
  | .s str => "\x27" ++ str ++ "\x27"
  | .d es => "\x7b" ++ pyReprEntries es ++ "\x7d"

/-- Python `repr` of a dict body: comma-separated `'key': value` pairs. -/
def pyReprEntries : List (String × YVal) → String
  | [] => ""
  | [(k, v)] => "\x27" ++ k ++ "\x27: " ++ pyReprY v
  | (k, v) :: e :: rest =>
    "\x27" ++ k ++ "\x27: " ++ pyReprY v ++ ", " ++ pyReprEntries (e :: rest)

end

/-- Python `str()` of a loaded YAML value, as used by the f-string that
builds the display prefix: strings pass through, dicts print as their repr. -/
def yvalStr : YVal → String
  | .s str => str
  | .d es => pyReprY (.d es)

/-- Python `str.title()` restricted to ASCII letters: the first letter of
each letter-run is uppercased, the rest lowercased.  The flag carries
whether the previous character was a letter. -/
def pyTitleAux : Bool → List Char → List Char
  | _, [] => []
  | prevAlpha, c :: cs =>
    if c.isAlpha then
      (if prevAlpha then c.toLower else c.toUpper) :: pyTitleAux true cs
    else c :: pyTitleAux false cs

def pyTitle (t : String) : String := String.mk (pyTitleAux false t.data)

/-- `value.get("display_name", key.replace("_", " ").title())` (source
line 67). -/
def displayNameOf (key : String) (entries : List (String × YVal)) : String :=
  match lookupAssoc "display_name" entries with
  | some v => yvalStr v
  | none => pyTitle (String.mk (key.data.map (fun c => if c = '_' then ' ' else c)))

/-- The inner `recurse` of `get_sidebar_options` (source lines 64-77).  The
mutated `options` OrderedDict is threaded as the last argument; a leaf
assignment is `odInsert` (OrderedDict assignment keeps the position of an
existing key). -/
def recurse : List (String × YVal) → List String → String → List (String × List String) →
    List (String × List String)
  | [], _, _, options => options
  | (_, .s _) :: rest, path_list, dispPre, options => recurse rest path_list dispPre options
  | (key, .d entries) :: rest, path_list, dispPre, options =>
    match hsub : lookupAssoc "sub_items" entries with
    | some (.d sub_items) =>
      recurse rest path_list dispPre
        (recurse sub_items (path_list ++ [key]) (dispPre ++ displayNameOf key entries ++ " > ")
          options)
    | _ =>
      recurse rest path_list dispPre
        (if (lookupAssoc "template" entries).isSome then
           odInsert (dispPre ++ displayNameOf key entries) (path_list ++ [key]) options
         else options)
termination_by l => sizeOf l
decreasing_by
  all_goals first
  | (simp
     done)
  | (simp
     omega)
  | (have h1 := lookupAssoc_sizeOf_lt hsub
     simp at h1 ⊢
     omega)

/-- `get_sidebar_options` (source lines 57-79). -/
def get_sidebar_options (data : List (String × YVal)) : List (String × List String) :=
  recurse data [] "" []

/-- Specification-side flattening: the `(display path, key path)` pairs of
all leaves, in depth-first document order, with duplicates kept.  A node
contributes a leaf exactly when the source would assign into `options`:
it is a dict without a dict-valued `sub_items` entry but with a `template`
entry; groups whose subtrees hold no such leaf contribute nothing. -/
def leafEntries : List (String × YVal) → List String → String → List (String × List String)
  | [], _, _ => []
  | (_, .s _) :: rest, path_list, dispPre => leafEntries rest path_list dispPre
  | (key, .d entries) :: rest, path_list, dispPre =>
    (match hsub : lookupAssoc "sub_items" entries with
     | some (.d sub_items) =>
       leafEntries sub_items (path_list ++ [key]) (dispPre ++ displayNameOf key entries ++ " > ")
     | _ =>
       if (lookupAssoc "template" entries).isSome then
         [(dispPre ++ displayNameOf key entries, path_list ++ [key])]
       else [])
    ++ leafEntries rest path_list dispPre
termination_by l => sizeOf l
decreasing_by
  all_goals first
  | (simp
     done)
  | (simp
     omega)
  | (have h1 := lookupAssoc_sizeOf_lt hsub
     simp at h1 ⊢
     omega)

theorem recurse_cons_d_sub (key : String) (entries rest : List (String × YVal))
    (path_list : List String) (dispPre : String) (options : List (String × List String))
    (sub_items : List (String × YVal))
    (hsub : lookupAssoc "sub_items" entries = some (.d sub_items)) :
    recurse ((key, .d entries) :: rest) path_list dispPre options =
      recurse rest path_list dispPre
        (recurse sub_items (path_list ++ [key]) (dispPre ++ displayNameOf key entries ++ " > ")
          options) := by
  rw [recurse.eq_3]
  split
  · simp_all
  · simp_all

theorem recurse_cons_d_nosub (key : String) (entries rest : List (String × YVal))
    (path_list : List String) (dispPre : String) (options : List (String × List String))
    (hsub : ∀ sub_items, lookupAssoc "sub_items" entries ≠ some (.d sub_items)) :
    recurse ((key, .d entries) :: rest) path_list dispPre options =
      recurse rest path_list dispPre
        (if (lookupAssoc "template" entries).isSome then
           odInsert (dispPre ++ displayNameOf key entries) (path_list ++ [key]) options
         else options) := by
  rw [recurse.eq_3]
  split
  · exact absurd (by assumption) (hsub _)
  · rfl

theorem leafEntries_cons_d_sub (key : String) (entries rest : List (String × YVal))
    (path_list : List String) (dispPre : String) (sub_items : List (String × YVal))
    (hsub : lookupAssoc "sub_items" entries = some (.d sub_items)) :
    leafEntries ((key, .d entries) :: rest) path_list dispPre =
      leafEntries sub_items (path_list ++ [key]) (dispPre ++ displayNameOf key entries ++ " > ")
        ++ leafEntries rest path_list dispPre := by
  rw [leafEntries.eq_3]
  split
  · simp_all
  · simp_all

theorem leafEntries_cons_d_nosub (key : String) (entries rest : List (String × YVal))
    (path_list : List String) (dispPre : String)
    (hsub : ∀ sub_items, lookupAssoc "sub_items" entries ≠ some (.d sub_items)) :
    leafEntries ((key, .d entries) :: rest) path_list dispPre =
      (if (lookupAssoc "template" entries).isSome then
         [(dispPre ++ displayNameOf key entries, path_list ++ [key])]
       else [])
        ++ leafEntries rest path_list dispPre := by
  rw [leafEntries.eq_3]
  split
  · exact absurd (by assumption) (hsub _)
  · rfl

/-- The flattener is exactly the left-to-right OrderedDict insertion of the
depth-first leaf sequence. -/
theorem recurse_eq_odInsertAll (sub : List (String × YVal)) (p : List String) (pre : String)
    (opts : List (String × List String)) :
    recurse sub p pre opts = odInsertAll opts (leafEntries sub p pre) := by
  induction sub, p, pre, opts using recurse.induct with
  | case1 => simp [recurse, leafEntries, odInsertAll]
  | case2 fst a rest path_list dispPre options ih => simpa [recurse, leafEntries] using ih
  | case3 key entries rest path_list dispPre options sub_items hsub ih1 ih2 =>
    rw [recurse_cons_d_sub key entries rest path_list dispPre options sub_items hsub,
      leafEntries_cons_d_sub key entries rest path_list dispPre sub_items hsub]
    rw [odInsertAll, List.foldl_append, ih2, ih1]
    rfl
  | case4 key entries rest path_list dispPre options hno ih =>
    have hno2 : ∀ sub_items, lookupAssoc "sub_items" entries ≠ some (.d sub_items) :=
      fun si h => hno si h
    rw [recurse_cons_d_nosub key entries rest path_list dispPre options hno2,
      leafEntries_cons_d_nosub key entries rest path_list dispPre hno2]
    by_cases ht : (lookupAssoc "template" entries).isSome
    · simp only [ht, if_true]
      simp only [ht] at ih
      simp at ih
      rw [odInsertAll, List.foldl_append]
      exact ih
    · simp only [ht, if_false]
      simp only [ht] at ih
      simp at ih
      simpa using ih

/-! ## The template renderer: `template.format(**user_inputs)` (lines 208-222)

`renderAux` is a character-level embedding of CPython `str.format` restricted
to replacement fields that are plain names — the only kind this program's
templates contain (no `!conversion`, no `:format-spec`, no auto-numbering).
It scans left to right: `\x7b\x7b` and `\x7d\x7d` are literal braces, `\x7b`
opens a field whose name runs to the matching `\x7d` and is looked up at once
(so the first problem in scan order determines the error, as in CPython),
a stray brace raises `ValueError` (`malformed`), and a name absent from the
keyword arguments raises `KeyError` (`missingPlaceholder`). -/

inductive RenderError where
  | missingPlaceholder : String → RenderError
  | malformed : RenderError
deriving DecidableEq

/-- Scanner state: outside any replacement field, or inside one with the
name characters read so far (reversed). -/
inductive ScanState where
  | normal : ScanState
  | inField : List Char → ScanState

def renderAux (values : List (String × String)) : ScanState → List Char →
    Except RenderError (List Char)
  | .normal, [] => .ok []
  | .inField _, [] => .error .malformed
  | .normal, '{' :: '{' :: rest => (renderAux values .normal rest).map (fun cs => '{' :: cs)
  | .normal, '{' :: rest => renderAux values (.inField []) rest
  | .normal, '}' :: '}' :: rest => (renderAux values .normal rest).map (fun cs => '}' :: cs)
  | .normal, '}' :: _ => .error .malformed
  | .normal, c :: rest => (renderAux values .normal rest).map (fun cs => c :: cs)
  | .inField acc, '}' :: rest =>
    match lookupAssoc (String.mk acc.reverse) values with
    | some v => (renderAux values .normal rest).map (fun cs => v.data ++ cs)
    | none => .error (.missingPlaceholder (String.mk acc.reverse))
  | .inField acc, c :: rest => renderAux values (.inField (c :: acc)) rest

/-- `template.format(**values)` together with the surrounding try/except
(source lines 208-222): the rendered string, or the caught error
(`KeyError` → `missingPlaceholder`; `ValueError` on a stray brace →
`malformed`).  A failed render produces no output text. -/
def render (template : String) (values : List (String × String)) :
    Except RenderError String :=
  match renderAux values .normal template.data with
  | .ok cs => .ok (String.mk cs)
  | .error e => .error e

/-! ### A token-level view of the same scan, for stating properties

`tokAux` runs the identical scanner but only records what it saw: literal
characters and field names.  `renderAux` is proved equal to substituting
into the token list whenever the scan succeeds, which lets the renderer's
contract be stated in terms of the template's placeholder set. -/

inductive Tok where
  | lit : Char → Tok
  | hole : String → Tok
deriving DecidableEq

def tokAux : ScanState → List Char → Except RenderError (List Tok)
  | .normal, [] => .ok []
  | .inField _, [] => .error .malformed
  | .normal, '{' :: '{' :: rest => (tokAux .normal rest).map (fun ts => .lit '{' :: ts)
  | .normal, '{' :: rest => tokAux (.inField []) rest
  | .normal, '}' :: '}' :: rest => (tokAux .normal rest).map (fun ts => .lit '}' :: ts)
  | .normal, '}' :: _ => .error .malformed
  | .normal, c :: rest => (tokAux .normal rest).map (fun ts => .lit c :: ts)
  | .inField acc, '}' :: rest =>
    (tokAux .normal rest).map (fun ts => .hole (String.mk acc.reverse) :: ts)
  | .inField acc, c :: rest => tokAux (.inField (c :: acc)) rest

/-- Scan a template into its token list. -/
def tokenize (template : String) : Except RenderError (List Tok) :=
  tokAux .normal template.data

/-- The field names of a token list, in scan order, duplicates kept. -/
def holes : List Tok → List String
  | [] => []
  | .lit _ :: ts => holes ts
  | .hole n :: ts => n :: holes ts

/-- The `\x7bname\x7d` occurrences of a template, in order. -/
def placeholders (template : String) : Except RenderError (List String) :=
  (tokenize template).map holes

/-- Substitution into a token list: literal characters pass through, each
hole is replaced by its value verbatim (the inserted value is never
re-scanned), a hole with no value is the first `KeyError`. -/
def substToks (values : List (String × String)) : List Tok → Except RenderError (List Char)
  | [] => .ok []
  | .lit c :: ts => (substToks values ts).map (fun cs => c :: cs)
  | .hole n :: ts =>
    match lookupAssoc n values with
    | some v => (substToks values ts).map (fun cs => v.data ++ cs)
    | none => .error (.missingPlaceholder n)

/-- Total substitution (holes with no value become empty), describing the
successful output. -/
def expandToks (values : List (String × String)) : List Tok → List Char
  | [] => []
  | .lit c :: ts => c :: expandToks values ts
  | .hole n :: ts => ((lookupAssoc n values).getD "").data ++ expandToks values ts

theorem renderAux_eq_substToks (values : List (String × String)) :
    ∀ (st : ScanState) (cs : List Char) (ts : List Tok),
      tokAux st cs = .ok ts → renderAux values st cs = substToks values ts := by
  intro st cs
  induction st, cs using tokAux.induct with
  | case1 =>
    intro ts h
    simp only [tokAux] at h
    cases h
    rfl
  | case2 acc =>
    intro ts h
    simp only [tokAux] at h
    simp at h
  | case3 rest ih =>
    intro ts h
    simp only [tokAux] at h
    rcases h' : tokAux .normal rest with e | ts'
    · rw [h'] at h
      simp [Except.map] at h
    · rw [h'] at h
      simp only [Except.map] at h
      cases h
      simp only [renderAux, substToks]
      rw [ih ts' h']
  | case4 rest hne ih =>
    intro ts h
    rw [tokAux.eq_4 rest hne] at h
    rw [renderAux.eq_4 values rest hne]
    exact ih ts h
  | case5 rest ih =>
    intro ts h
    simp only [tokAux] at h
    rcases h' : tokAux .normal rest with e | ts'
    · rw [h'] at h
      simp [Except.map] at h
    · rw [h'] at h
      simp only [Except.map] at h
      cases h
      simp only [renderAux, substToks]
      rw [ih ts' h']
  | case6 tail hne =>
    intro ts h
    rw [tokAux.eq_6 tail hne] at h
    simp at h
  | case7 c rest h1 h2 h3 h4 ih =>
    intro ts h
    rw [tokAux.eq_7 c rest h1 h2 h3 h4] at h
    rw [renderAux.eq_7 values c rest h1 h2 h3 h4]
    rcases h' : tokAux .normal rest with e | ts'
    · rw [h'] at h
      simp [Except.map] at h
    · rw [h'] at h
      simp only [Except.map] at h
      cases h
      simp only [substToks]
      rw [ih ts' h']
  | case8 acc rest ih =>
    intro ts h
    simp only [tokAux] at h
    rcases h' : tokAux .normal rest with e | ts'
    · rw [h'] at h
      simp [Except.map] at h
    · rw [h'] at h
      simp only [Except.map] at h
      cases h
      simp only [renderAux, substToks]
      rcases hv : lookupAssoc (String.mk acc.reverse) values with _ | v
      · rfl
      · rw [ih ts' h']
  | case9 acc c rest hc ih =>
    intro ts h
    rw [tokAux.eq_9 acc c rest hc] at h
    rw [renderAux.eq_9 values acc c rest hc]
    exact ih ts h

theorem substToks_error {values : List (String × String)} :
    ∀ {ts : List Tok} {e : RenderError}, substToks values ts = .error e →
      ∃ n, e = .missingPlaceholder n ∧ n ∈ holes ts ∧ lookupAssoc n values = none := by
  intro ts
  induction ts with
  | nil =>
    intro e h
    simp [substToks] at h
  | cons t ts ih =>
    intro e h
    cases t with
    | lit c =>
      rw [substToks] at h
      rcases h' : substToks values ts with e' | cs
      · rw [h'] at h
        simp only [Except.map] at h
        cases h
        obtain ⟨n, hn⟩ := ih h'
        exact ⟨n, hn.1, by simp [holes, hn.2.1], hn.2.2⟩
      · rw [h'] at h
        simp [Except.map] at h
    | hole n =>
      rw [substToks] at h
      rcases hv : lookupAssoc n values with _ | v
      · rw [hv] at h
        simp only at h
        cases h
        exact ⟨n, rfl, by simp [holes], hv⟩
      · rw [hv] at h
        simp only at h
        rcases h' : substToks values ts with e' | cs
        · rw [h'] at h
          simp only [Except.map] at h
          cases h
          obtain ⟨m, hm⟩ := ih h'
          exact ⟨m, hm.1, by simp [holes, hm.2.1], hm.2.2⟩
        · rw [h'] at h
          simp [Except.map] at h

theorem substToks_ok {values : List (String × String)} :
    ∀ {ts : List Tok}, (∀ n ∈ holes ts, (lookupAssoc n values).isSome) →
      substToks values ts = .ok (expandToks values ts) := by
  intro ts
  induction ts with
  | nil => intro _; rfl
  | cons t ts ih =>
    intro hall
    cases t with
    | lit c =>
      rw [substToks, expandToks, ih (fun n hn => hall n (by simp [holes, hn]))]
      rfl
    | hole n =>
      have hv := hall n (by simp [holes])
      rcases hv' : lookupAssoc n values with _ | v
      · rw [hv'] at hv
        simp at hv
      · rw [substToks, hv', expandToks, hv',
          ih (fun m hm => hall m (by simp [holes, hm]))]
        rfl

theorem substToks_missing {values : List (String × String)} :
    ∀ {ts : List Tok}, (∃ n ∈ holes ts, lookupAssoc n values = none) →
      ∃ m, substToks values ts = .error (.missingPlaceholder m) := by
  intro ts
  induction ts with
  | nil =>
    intro h
    obtain ⟨n, hn, _⟩ := h
    simp [holes] at hn
  | cons t ts ih =>
    intro h
    cases t with
    | lit c =>
      have h' : ∃ n ∈ holes ts, lookupAssoc n values = none := by
        obtain ⟨n, hn, hv⟩ := h
        exact ⟨n, by simpa [holes] using hn, hv⟩
      obtain ⟨m, hm⟩ := ih h'
      exact ⟨m, by rw [substToks, hm]; rfl⟩
    | hole n =>
      rcases hv : lookupAssoc n values with _ | v
      · exact ⟨n, by rw [substToks, hv]⟩
      · have h' : ∃ m ∈ holes ts, lookupAssoc m values = none := by
          obtain ⟨m, hm, hmv⟩ := h
          rcases (by simpa [holes] using hm : m = n ∨ m ∈ holes ts) with rfl | hm'
          · rw [hv] at hmv
            cases hmv
          · exact ⟨m, hm', hmv⟩
        obtain ⟨m, hm⟩ := ih h'
        exact ⟨m, by rw [substToks, hv, hm]; rfl⟩

theorem substToks_congr {values values' : List (String × String)} :
    ∀ {ts : List Tok}, (∀ n ∈ holes ts, lookupAssoc n values' = lookupAssoc n values) →
      substToks values' ts = substToks values ts := by
  intro ts
  induction ts with
  | nil => intro _; rfl
  | cons t ts ih =>
    intro hagree
    cases t with
    | lit c =>
      rw [substToks, substToks, ih (fun n hn => hagree n (by simp [holes, hn]))]
    | hole n =>
      have he : lookupAssoc n values' = lookupAssoc n values := hagree n (by simp [holes])
      rw [substToks, substToks, he, ih (fun m hm => hagree m (by simp [holes, hm]))]

theorem tokAux_inField_name {nm : List Char} :
    ∀ (acc : List Char), (∀ c ∈ nm, c ≠ '{' ∧ c ≠ '}') →
      tokAux (.inField acc) (nm ++ ['}']) = .ok [.hole (String.mk (acc.reverse ++ nm))] := by
  induction nm with
  | nil =>
    intro acc _
    simp [tokAux, Except.map]
  | cons c nm ih =>
    intro acc hc
    have hcne : c ≠ '}' := (hc c (by simp)).2
    rw [List.cons_append, tokAux.eq_9 acc c _ (fun h => hcne h),
      ih (c :: acc) (fun d hd => hc d (by simp [hd]))]
    simp

theorem tokenize_single_hole {n : String} (hn : ∀ c ∈ n.data, c ≠ '{' ∧ c ≠ '}') :
    tokenize (String.mk ('{' :: n.data ++ ['}'])) = .ok [.hole n] := by
  rw [tokenize]
  show tokAux .normal ('{' :: (n.data ++ ['}'])) = .ok [.hole n]
  rcases hd : n.data with _ | ⟨c, nm⟩
  · have : n = "" := by
      cases n
      simp_all
    subst this
    rfl
  · have hne : ∀ rest_1, c :: nm ++ ['}'] = '{' :: rest_1 → False := by
      intro rest_1 habs
      injection habs with h1 _
      exact (hn c (by simp [hd])).1 h1
    rw [tokAux.eq_4 _ hne]
    have hn' : ∀ d ∈ c :: nm, d ≠ '{' ∧ d ≠ '}' := by
      intro d hdm
      exact hn d (by rw [hd]; exact hdm)
    rw [tokAux_inField_name [] hn']
    have hmk : String.mk (List.reverse ([] : List Char) ++ c :: nm) = n := by
      cases n
      simp_all
    rw [hmk]

/-! ## The per-placeholder input loop (source lines 143-222)

For each `(placeholder_name, config)` of `input_config` the program reads a
raw widget value, applies the named formatting function when one is
configured, reports any problem with `st.error`, and stores the resulting
value in `user_inputs`; it then injects `current_date`, always considers the
inputs complete (`inputs_complete = True`), and renders the template. -/

/-- The fields of one `input_config` entry that affect the computed value
(`label`, `placeholder` and `options` are presentation-only). -/
structure FieldConfig where
  widget : String
  format_function : Option String

/-- An error surfaced to the user with `st.error` during the input loop. -/
inductive UiError where
  | unknownFormatFunction : String → UiError
  | formatFunctionError : String → String → String → UiError
deriving DecidableEq

/-- Python `str()` of a final value, as `str.format` applies it when filling
a placeholder: strings pass through, a list prints as its repr. -/
def valueToStr : WidgetValue → String
  | .s str => str
  | .l xs => "[" ++ pyJoin ", " (xs.map (fun x => "\x27" ++ x ++ "\x27")) ++ "]"

/-- Lines 177-192: compute one placeholder's final value.  A configured
formatter found in the registry is applied; if it raises, the error is
reported and the sentinel `"[Formatting Error]"` becomes the value; a
formatter name absent from the registry is reported and the sentinel
`"[Unknown Format Function]"` becomes the value.  In every case the loop
continues with the chosen value. -/
def resolveField (registry : List (String × (WidgetValue → Except String String)))
    (placeholder_name : String) (config : FieldConfig) (raw_value : WidgetValue) :
    WidgetValue × Option UiError :=
  match config.format_function with
  | none => (raw_value, none)
  | some fname =>
    match lookupAssoc fname registry with
    | some formatting_function =>
      match formatting_function raw_value with
      | .ok out => (.s out, none)
      | .error cause => (.s "[Formatting Error]", some (.formatFunctionError fname placeholder_name cause))
    | none => (.s "[Unknown Format Function]", some (.unknownFormatFunction fname))

/-- The loop over `input_config` (lines 143-192): builds `user_inputs` by
dictionary assignment in order and collects the reported errors. -/
def resolveInputs (registry : List (String × (WidgetValue → Except String String)))
    (input_config : List (String × FieldConfig)) (raw_values : String → WidgetValue) :
    List (String × WidgetValue) × List UiError :=
  input_config.foldl
    (fun acc pc =>
      let r := resolveField registry pc.1 pc.2 (raw_values pc.1)
      (odInsert pc.1 r.1 acc.1, acc.2 ++ r.2.toList))
    ([], [])

/-- `needle in haystack` on strings, as `"\x7bcurrent_date\x7d" in template`
uses it (line 200). -/
def listContainsSub (needle : List Char) : List Char → Bool
  | [] => needle.isEmpty
  | c :: rest => needle.isPrefixOf (c :: rest) || listContainsSub needle rest

/-- Lines 195-222: after the loop, `current_date` is injected whenever the
template mentions it (its value comes from the system clock, passed here as
`today`), `inputs_complete` is unconditionally `True`, and the template is
rendered with every collected value — the render is attempted regardless of
any reported formatting errors.  Result: the outcome of the render and the
list of errors reported along the way. -/
def generate_note (registry : List (String × (WidgetValue → Except String String)))
    (template : String) (input_config : List (String × FieldConfig))
    (raw_values : String → WidgetValue) (today : String) :
    Except RenderError String × List UiError :=
  let r := resolveInputs registry input_config raw_values
  let user_inputs :=
    if listContainsSub "{current_date}".data template.data then
      odInsert "current_date" (.s today) r.1
    else r.1
  (render template (user_inputs.map (fun e => (e.1, valueToStr e.2))), r.2)

/-! ## The `select-with-conditional` pattern (modelled from the spec)

The checked-in source holds only the schema-driven variant, whose widget
dispatch has no `select-with-conditional` branch; the spec states that this
pattern lives in the repository's other, superseded variant and consolidates
it into the engine (spec sections 4.2 and 9).  The definitions below are
therefore modelled from the spec's words rather than from code under
`src/`. -/

/-- Modelled from the spec: the errors of section 7 that resolution of a
conditional field can produce. -/
inductive FieldError where
  | incompleteConditionalInput : String → FieldError
deriving DecidableEq

/-- Modelled from the spec: the `conditional` part of a
`select-with-conditional` FieldSpec — `triggerOption`, `prompt`, and a
one-placeholder `resultFormat` string. -/
structure ConditionalSpec where
  triggerOption : String
  prompt : String
  resultFormat : String

/-- Modelled from the spec: apply a one-placeholder format string — the
first empty replacement field is filled with the value. -/
def fillHole (value : List Char) : List Char → List Char
  | '{' :: '}' :: rest => value ++ rest
  | c :: rest => c :: fillHole value rest
  | [] => []

/-- Modelled from the spec (section 4.2, `select-with-conditional`): if the
primary selection equals `triggerOption`, a non-empty conditional value is
formatted through `resultFormat`, and an empty one fails with
`IncompleteConditionalInput` naming the prompt; any other selection resolves
to itself verbatim. -/
def resolveConditional (cond : ConditionalSpec) (selection conditionalValue : String) :
    Except FieldError String :=
  if selection = cond.triggerOption then
    if conditionalValue = "" then .error (.incompleteConditionalInput cond.prompt)
    else .ok (String.mk (fillHole conditionalValue.data cond.resultFormat.data))
  else .ok selection

/-- Modelled from the spec: one conditional field of a leaf's `inputConfig`
together with the raw widget values supplied for it. -/
structure CondField where
  placeholder_name : String
  cond : ConditionalSpec
  selection : String
  conditionalValue : String

/-- Modelled from the spec (section 4.2, aggregate behavior): resolution of
a list of conditional fields succeeds, producing the placeholder-to-string
mapping, only if every field resolves; the first field error makes the whole
resolution fail, so no output mapping is produced and rendering cannot
proceed. -/
def resolveFields : List CondField → Except FieldError (List (String × String))
  | [] => .ok []
  | f :: rest =>
    match resolveConditional f.cond f.selection f.conditionalValue with
    | .error e => .error e
    | .ok v =>
      match resolveFields rest with
      | .error e => .error e
      | .ok vs => .ok ((f.placeholder_name, v) :: vs)

/-! ## Claim theorems -/

/-- C2: the multi-select joiner `format_check_types` maps `[]` to the
no-selection marker, a one-element list to its element verbatim, a
two-element list to the two elements joined with `" & "` after sorting,
every three-element list to the fixed literal
`"Credit, Criminal & Directorship"`, and a list of four or more elements to
all elements joined with `" & "` after sorting; and the sort used
(`pySorted`) really is lexicographic sorting — a sorted permutation of its
input. -/
theorem c2_format_check_types_cases :
    format_check_types [] = "[No check type selected]"
    ∧ (∀ t, format_check_types [t] = t)
    ∧ (∀ a b, format_check_types [a, b] = pyJoin " & " (pySorted [a, b]))
    ∧ (∀ a b c, format_check_types [a, b, c] = "Credit, Criminal & Directorship")
    ∧ (∀ l, 4 ≤ l.length → format_check_types l = pyJoin " & " (pySorted l))
    ∧ (∀ l, (pySorted l).Perm l ∧ List.Sorted pyLe (pySorted l)) := by
  refine ⟨format_check_types_nil, format_check_types_one, ?_, ?_, ?_, ?_⟩
  · intro a b
    rw [format_check_types_two (by simp)]
    obtain ⟨x, y, hxy⟩ :=
      List.length_eq_two.mp ((pySorted_perm [a, b]).length_eq.trans (by simp))
    rw [hxy]
    simp [pyJoin]
  · intro a b c
    exact format_check_types_three (by simp)
  · intro l h
    exact format_check_types_ge_four h
  · intro l
    exact ⟨pySorted_perm l, pySorted_sorted l⟩

/-- Witness for C2: a concrete four-element instance of the sorted-join
case. -/
theorem c2_witness :
    format_check_types ["Directorship", "Criminal", "Credit", "Adverse Media"] =
      pyJoin " & " (pySorted ["Directorship", "Criminal", "Credit", "Adverse Media"]) :=
  c2_format_check_types_cases.2.2.2.2.1 _ (by decide)

/-- C9: `format_check_types` is permutation-invariant — two lists that are
permutations of one another format to the same string. -/
theorem c9_format_check_types_perm_invariant (l₁ l₂ : List String) (h : l₁.Perm l₂) :
    format_check_types l₁ = format_check_types l₂ := by
  have hs : pySorted l₁ = pySorted l₂ := pySorted_perm_eq h
  have hl : l₁.length = l₂.length := h.length_eq
  by_cases h0 : l₁.length = 0
  · rw [List.length_eq_zero.mp h0, List.length_eq_zero.mp (show l₂.length = 0 by omega)]
  · by_cases h1 : l₁.length = 1
    · obtain ⟨x, hx⟩ := List.length_eq_one.mp h1
      subst hx
      rw [List.perm_singleton.mp h.symm]
    · by_cases h2 : l₁.length = 2
      · rw [format_check_types_two h2, format_check_types_two (show l₂.length = 2 by omega), hs]
      · by_cases h3 : l₁.length = 3
        · rw [format_check_types_three h3,
            format_check_types_three (show l₂.length = 3 by omega)]
        · rw [format_check_types_ge_four (show 4 ≤ l₁.length by omega),
            format_check_types_ge_four (show 4 ≤ l₂.length by omega), hs]

/-- Witness for C9: a concrete two-element permutation. -/
theorem c9_witness :
    format_check_types ["Criminal", "Credit"] = format_check_types ["Credit", "Criminal"] :=
  c9_format_check_types_perm_invariant _ _ (List.Perm.swap "Credit" "Criminal" [])

/-- C3 (amended): when the leaves' display paths are pairwise distinct,
`get_sidebar_options` returns exactly the `(display path, key path)` pairs
of the leaves reachable from the root, each exactly once, in depth-first
sibling order (`leafEntries`, in which groups without leaf descendants
contribute nothing).  Without that distinctness proviso the claim fails:
see the counterexample. -/
theorem c3_flatten_eq_leafEntries (data : List (String × YVal))
    (hnd : ((leafEntries data [] "").map Prod.fst).Nodup) :
    get_sidebar_options data = leafEntries data [] "" := by
  rw [get_sidebar_options, recurse_eq_odInsertAll,
    odInsertAll_of_nodup _ _ hnd (by simp)]
  simp

/-- A schema tree with two distinct leaves that share the display path
`"X"`. -/
def collidingTree : List (String × YVal) :=
  [("alpha", .d [("display_name", .s "X"), ("template", .s "t1")]),
   ("beta", .d [("display_name", .s "X"), ("template", .s "t2")])]

/-- Counterexample for C3 as stated: `collidingTree` has two reachable
leaves (key paths `["alpha"]` and `["beta"]`, in depth-first order), but
the flattener emits a single entry and the leaf path `["alpha"]` is absent
from the output — so the output is not the set of reachable leaf paths. -/
theorem c3_claim_counterexample :
    leafEntries collidingTree [] "" = [("X", ["alpha"]), ("X", ["beta"])]
    ∧ get_sidebar_options collidingTree = [("X", ["beta"])]
    ∧ ["alpha"] ∉ (get_sidebar_options collidingTree).map Prod.snd := by
  refine ⟨?_, ?_, ?_⟩
  · simp [collidingTree, leafEntries, displayNameOf, lookupAssoc, yvalStr]
  · simp [collidingTree, get_sidebar_options, recurse, displayNameOf, lookupAssoc, yvalStr,
      odInsert]
  · simp [collidingTree, get_sidebar_options, recurse, displayNameOf, lookupAssoc, yvalStr,
      odInsert]

/-- A small schema tree with one group and two leaves, all display names
distinct, plus a leafless group contributing nothing. -/
def nestedTree : List (String × YVal) :=
  [("checks", .d [("display_name", .s "Checks"),
     ("sub_items", .d [("ordered", .d [("display_name", .s "Ordered"), ("template", .s "t1")]),
                       ("done", .d [("display_name", .s "Done"), ("template", .s "t2")])])]),
   ("emptygroup", .d [("display_name", .s "Empty"), ("sub_items", .d [])]),
   ("solo", .d [("display_name", .s "Solo"), ("template", .s "t3")])]

/-- Witness for C3: on `nestedTree` the flattener output equals the
depth-first leaf sequence. -/
theorem c3_witness : get_sidebar_options nestedTree = leafEntries nestedTree [] "" :=
  c3_flatten_eq_leafEntries nestedTree (by
    have h : leafEntries nestedTree [] "" =
        [("Checks > Ordered", ["checks", "ordered"]), ("Checks > Done", ["checks", "done"]),
         ("Solo", ["solo"])] := by
      simp [nestedTree, leafEntries, displayNameOf, lookupAssoc, yvalStr]
    rw [h]
    decide)

/-- C10: the flattener's output is keyed by display path — its keys are
pairwise distinct, looking up a display path returns the key path of the
depth-first-last leaf with that display path (the later leaf overwrites the
earlier), and a display path occurs in the output exactly when some
reachable leaf produces it. -/
theorem c10_display_path_overwrite (data : List (String × YVal)) :
    ((get_sidebar_options data).map Prod.fst).Nodup
    ∧ (∀ k, lookupAssoc k (get_sidebar_options data) =
        lookupAssoc k (leafEntries data [] "").reverse)
    ∧ (∀ k, k ∈ (get_sidebar_options data).map Prod.fst ↔
        k ∈ (leafEntries data [] "").map Prod.fst) := by
  rw [get_sidebar_options, recurse_eq_odInsertAll]
  refine ⟨nodup_map_fst_odInsertAll _ _ (by simp), ?_, ?_⟩
  · intro k
    rw [lookupAssoc_odInsertAll]
    cases h : lookupAssoc k (leafEntries data [] "").reverse <;> simp [h, lookupAssoc, Option.or]
  · intro k
    rw [mem_map_fst_odInsertAll]
    simp

/-- C5: for a template whose scan succeeds, `render` fails with
`missingPlaceholder n` exactly when some `\x7bname\x7d` occurrence of the
template has no entry in `values` (and the reported name is such an
occurrence); entries not referenced by the template are ignored — the
result depends only on the looked-up names; when every referenced name is
present the result is the template with each hole replaced by its value;
and substitution is a single non-recursive pass — a looked-up value is
emitted verbatim, never re-scanned for further placeholders. -/
theorem c5_render_contract (template : String) (values : List (String × String))
    (toks : List Tok) (hw : tokenize template = .ok toks) :
    (∀ n, render template values = .error (.missingPlaceholder n) →
        n ∈ holes toks ∧ lookupAssoc n values = none)
    ∧ ((∃ n, render template values = .error (.missingPlaceholder n)) ↔
        (∃ n, n ∈ holes toks ∧ lookupAssoc n values = none))
    ∧ (∀ values', (∀ n ∈ holes toks, lookupAssoc n values' = lookupAssoc n values) →
        render template values' = render template values)
    ∧ ((∀ n ∈ holes toks, (lookupAssoc n values).isSome) →
        render template values = .ok (String.mk (expandToks values toks)))
    ∧ (∀ n v, lookupAssoc n values = some v → (∀ c ∈ n.data, c ≠ '{' ∧ c ≠ '}') →
        render (String.mk ('{' :: n.data ++ ['}'])) values = .ok v) := by
  have hre : ∀ (vals' : List (String × String)),
      renderAux vals' .normal template.data = substToks vals' toks :=
    fun vals' => renderAux_eq_substToks vals' _ _ toks hw
  have hmain : ∀ n, render template values = .error (.missingPlaceholder n) →
      n ∈ holes toks ∧ lookupAssoc n values = none := by
    intro n h
    rw [render, hre values] at h
    rcases hsub : substToks values toks with e | cs
    · rw [hsub] at h
      cases h
      obtain ⟨m, hm1, hm2, hm3⟩ := substToks_error hsub
      cases hm1
      exact ⟨hm2, hm3⟩
    · rw [hsub] at h
      cases h
  refine ⟨hmain, ?_, ?_, ?_, ?_⟩
  · constructor
    · rintro ⟨n, hn⟩
      exact ⟨n, hmain n hn⟩
    · rintro ⟨n, hmem, hnone⟩
      obtain ⟨m, hm⟩ := substToks_missing ⟨n, hmem, hnone⟩
      refine ⟨m, ?_⟩
      rw [render, hre values, hm]
  · intro values' hagree
    rw [render, render, hre values', hre values, substToks_congr hagree]
  · intro hall
    rw [render, hre values, substToks_ok hall]
  · intro n v hv hn
    have ht := tokenize_single_hole hn
    have hb := renderAux_eq_substToks values .normal ('{' :: n.data ++ ['}']) [.hole n] ht
    rw [render]
    show (match renderAux values .normal ('{' :: n.data ++ ['}']) with
          | .ok cs => Except.ok (String.mk cs)
          | .error e => .error e) = .ok v
    rw [hb, substToks, hv]
    simp [substToks, Except.map]

/-- Witness for C5: a concrete render with one referenced placeholder and
one extra, unreferenced entry. -/
theorem c5_witness :
    render "To {email_address}!" [("email_address", "a@b.com"), ("unused", "zzz")] =
      .ok "To a@b.com!" := by
  have h := c5_render_contract "To {email_address}!"
    [("email_address", "a@b.com"), ("unused", "zzz")]
    [.lit 'T', .lit 'o', .lit ' ', .hole "email_address", .lit '!'] rfl
  exact (h.2.2.2.1 (by decide)).trans (by rfl)

/-- C6 (modelled from the spec): for a `select-with-conditional` field whose
primary selection differs from `triggerOption`, resolution yields the
selection string exactly, whatever the conditional input holds. -/
theorem c6_conditional_not_triggered (cond : ConditionalSpec)
    (selection conditionalValue : String) (h : selection ≠ cond.triggerOption) :
    resolveConditional cond selection conditionalValue = .ok selection := by
  rw [resolveConditional, if_neg h]

/-- Witness for C6: a concrete non-triggering selection with a stale
conditional value supplied. -/
theorem c6_witness :
    resolveConditional
      { triggerOption := "International", prompt := "Specify country",
        resultFormat := "{} (Credit/Criminal/Directorship)" }
      "Domestic" "France" = .ok "Domestic" :=
  c6_conditional_not_triggered _ _ _ (by decide)

/-- C7 (modelled from the spec): for a `select-with-conditional` field whose
selection equals `triggerOption` while the conditional input is empty,
resolution fails with `IncompleteConditionalInput` naming the prompt, and a
field list containing such a field never resolves to a successful output
mapping — the placeholder is in no successful output and rendering cannot
proceed. -/
theorem c7_incomplete_conditional (cond : ConditionalSpec) (selection : String)
    (hsel : selection = cond.triggerOption) :
    resolveConditional cond selection "" = .error (.incompleteConditionalInput cond.prompt)
    ∧ ∀ (fields : List CondField) (f : CondField), f ∈ fields → f.cond = cond →
        f.selection = selection → f.conditionalValue = "" →
        ∀ out, resolveFields fields ≠ .ok out := by
  have hone : resolveConditional cond selection "" =
      .error (.incompleteConditionalInput cond.prompt) := by
    rw [resolveConditional, if_pos hsel, if_pos rfl]
  refine ⟨hone, ?_⟩
  intro fields
  induction fields with
  | nil =>
    intro f hf
    simp at hf
  | cons g rest ih =>
    intro f hf hc hs hv out
    rcases List.mem_cons.mp hf with rfl | hf'
    · have : resolveConditional f.cond f.selection f.conditionalValue =
          .error (.incompleteConditionalInput cond.prompt) := by
        rw [hc, hs, hv, hone]
      simp [resolveFields, this]
    · rcases hr : resolveConditional g.cond g.selection g.conditionalValue with e | v
      · simp [resolveFields, hr]
      · rcases hrest : resolveFields rest with e | vs
        · simp [resolveFields, hr, hrest]
        · exact absurd hrest (ih f hf' hc hs hv vs)

/-- A concrete conditional spec: country choice triggering a second input. -/
def condEx : ConditionalSpec :=
  { triggerOption := "International", prompt := "Specify country",
    resultFormat := "{} (Credit/Criminal/Directorship)" }

/-- A concrete triggered conditional field with an empty conditional
value. -/
def condFieldEx : CondField :=
  { placeholder_name := "check_scope", cond := condEx,
    selection := "International", conditionalValue := "" }

/-- Witness for C7: the concrete triggered-but-empty field fails naming its
prompt, and a one-field configuration containing it resolves to no output
mapping. -/
theorem c7_witness :
    resolveConditional condEx "International" "" =
      .error (.incompleteConditionalInput "Specify country")
    ∧ resolveFields [condFieldEx] ≠ .ok [] := by
  have h := c7_incomplete_conditional condEx "International" rfl
  exact ⟨h.1, h.2 [condFieldEx] condFieldEx (by simp) rfl rfl rfl []⟩

/-- C1 (amended): when a field's configured `format_function` name is not a
key of the registry, the loop reports `UnknownFormatFunction` naming it via
`st.error`, sets the field's value to the sentinel
`"[Unknown Format Function]"`, and — because `inputs_complete` is
unconditionally true — rendering proceeds and produces output containing
the sentinel; there is no debug-partials opt-in. -/
theorem c1_unknown_format_function
    (registry : List (String × (WidgetValue → Except String String)))
    (fname : String) (config : FieldConfig) (raw_values : String → WidgetValue)
    (today : String)
    (hname : config.format_function = some fname)
    (hmiss : lookupAssoc fname registry = none) :
    (∀ placeholder_name raw_value,
        resolveField registry placeholder_name config raw_value =
          (.s "[Unknown Format Function]", some (.unknownFormatFunction fname)))
    ∧ generate_note registry "{x}" [("x", config)] raw_values today =
        (.ok "[Unknown Format Function]", [.unknownFormatFunction fname]) := by
  have h1 : ∀ placeholder_name raw_value,
      resolveField registry placeholder_name config raw_value =
        (.s "[Unknown Format Function]", some (.unknownFormatFunction fname)) := by
    intro placeholder_name raw_value
    rw [resolveField.eq_def, hname]
    simp only [hmiss]
  refine ⟨h1, ?_⟩
  simp only [generate_note, resolveInputs, List.foldl, h1]
  rfl

/-- Counterexample for C1 as stated: with the program's actual registry and
a field configured with the unregistered formatter name `"missing_fn"`,
rendering proceeds and the produced note is exactly the placeholder
sentinel — no opt-in is consulted, because none exists. -/
theorem c1_claim_counterexample :
    generate_note format_functions_registry "{x}"
      [("x", { widget := "text_input", format_function := some "missing_fn" })]
      (fun _ => .s "anything") "2026-10-12" =
      (.ok "[Unknown Format Function]", [.unknownFormatFunction "missing_fn"]) := rfl

/-- Witness for C1: the amended theorem evaluated at a concrete unregistered
name. -/
theorem c1_witness :
    resolveField format_functions_registry "x"
        { widget := "text_input", format_function := some "other_fn" } (.s "v") =
      (.s "[Unknown Format Function]", some (.unknownFormatFunction "other_fn"))
    ∧ generate_note format_functions_registry "{x}"
        [("x", { widget := "text_input", format_function := some "other_fn" })]
        (fun _ => .s "v") "2026-01-01" =
        (.ok "[Unknown Format Function]", [.unknownFormatFunction "other_fn"]) := by
  have h := c1_unknown_format_function format_functions_registry "other_fn"
    { widget := "text_input", format_function := some "other_fn" }
    (fun _ => .s "v") "2026-01-01" rfl rfl
  exact ⟨h.1 "x" (.s "v"), h.2⟩

/-- C4 (amended): when a field's configured formatter is found in the
registry but raises, the loop reports `FormatFunctionError` carrying the
formatter name, the field and the cause via `st.error`, sets the field's
value to the sentinel `"[Formatting Error]"`, and rendering proceeds,
producing output containing the sentinel — the render is not withheld. -/
theorem c4_format_function_error
    (registry : List (String × (WidgetValue → Except String String)))
    (fname : String) (f : WidgetValue → Except String String) (config : FieldConfig)
    (raw_values : String → WidgetValue) (today cause : String)
    (hname : config.format_function = some fname)
    (hfound : lookupAssoc fname registry = some f)
    (hfail : f (raw_values "x") = .error cause) :
    resolveField registry "x" config (raw_values "x") =
      (.s "[Formatting Error]", some (.formatFunctionError fname "x" cause))
    ∧ generate_note registry "{x}" [("x", config)] raw_values today =
        (.ok "[Formatting Error]", [.formatFunctionError fname "x" cause]) := by
  have h1 : resolveField registry "x" config (raw_values "x") =
      (.s "[Formatting Error]", some (.formatFunctionError fname "x" cause)) := by
    rw [resolveField.eq_def, hname]
    simp only [hfound, hfail]
  refine ⟨h1, ?_⟩
  simp only [generate_note, resolveInputs, List.foldl, h1]
  rfl

/-- A registry whose single formatter always raises; the registry is the
program's extension point (its source invites adding entries), and the
loop's exception handler is what the claim describes. -/
def failing_registry : List (String × (WidgetValue → Except String String)) :=
  [("explode", fun _ => .error "TypeError: boom")]

/-- Counterexample for C4 as stated: with a registered formatter that
raises, rendering proceeds and the produced note is exactly the
`"[Formatting Error]"` sentinel — the render is not withheld. -/
theorem c4_claim_counterexample :
    generate_note failing_registry "{x}"
      [("x", { widget := "text_input", format_function := some "explode" })]
      (fun _ => .s "v") "2026-10-12" =
      (.ok "[Formatting Error]", [.formatFunctionError "explode" "x" "TypeError: boom"]) := rfl

/-- Witness for C4: the amended theorem evaluated at a concrete raising
formatter. -/
theorem c4_witness :
    resolveField failing_registry "x"
        { widget := "text_area", format_function := some "explode" } (.l ["a"]) =
      (.s "[Formatting Error]", some (.formatFunctionError "explode" "x" "TypeError: boom"))
    ∧ generate_note failing_registry "{x}"
        [("x", { widget := "text_area", format_function := some "explode" })]
        (fun _ => .l ["a"]) "2026-03-04" =
        (.ok "[Formatting Error]", [.formatFunctionError "explode" "x" "TypeError: boom"]) := by
  have h := c4_format_function_error failing_registry "explode"
    (fun _ => .error "TypeError: boom")
    { widget := "text_area", format_function := some "explode" }
    (fun _ => .l ["a"]) "2026-03-04" "TypeError: boom" rfl rfl rfl
  exact ⟨h.1, h.2⟩

end Giant
